import Mathlib

set_option maxRecDepth 40000

/-!
Verification of the duplicate-file remover
(`eliminacion_Archivos_duplicados.py`).

The program is embedded shallowly:

* file contents are byte lists (`List Nat`, each byte `< 256`); a file whose
  content cannot be read is modelled as `none`;
* `hashlib.sha256` is implemented bit-faithfully (FIPS 180-4) over `Nat`
  with explicit reduction `% 2 ^ 32`; `hexdigest` is the usual lowercase
  hexadecimal rendering of the 32-byte digest;
* the filesystem walk is a list of `(path, content?)` pairs in traversal
  order; modification times are an oracle `String → Option Int`
  (`none` = `os.path.getmtime` raises); deletion success is an oracle
  `String → Bool`;
* Python's insertion-ordered `dict` is an association list, and `main` is
  a function producing the trace of observable events.
-/

/-! ## SHA-256 (the `hashlib.sha256` collaborator) -/

/-- `2 ^ 32`, the word modulus of SHA-256. -/
def w32 : Nat := 4294967296

/-- Right rotation of a 32-bit word. -/
def rotr (n w : Nat) : Nat := ((w >>> n) ||| (w <<< (32 - n))) % w32

/-- Bitwise complement of a 32-bit word. -/
def notw (w : Nat) : Nat := w ^^^ 4294967295

/-- SHA-256 `Ch` function. -/
def ch (e f g : Nat) : Nat := (e &&& f) ^^^ (notw e &&& g)

/-- SHA-256 `Maj` function. -/
def maj (a b c : Nat) : Nat := (a &&& b) ^^^ (a &&& c) ^^^ (b &&& c)

/-- SHA-256 `Σ₀`. -/
def bigSigma0 (a : Nat) : Nat := rotr 2 a ^^^ rotr 13 a ^^^ rotr 22 a

/-- SHA-256 `Σ₁`. -/
def bigSigma1 (e : Nat) : Nat := rotr 6 e ^^^ rotr 11 e ^^^ rotr 25 e

/-- SHA-256 `σ₀`. -/
def smallSigma0 (x : Nat) : Nat := rotr 7 x ^^^ rotr 18 x ^^^ (x >>> 3)

/-- SHA-256 `σ₁`. -/
def smallSigma1 (x : Nat) : Nat := rotr 17 x ^^^ rotr 19 x ^^^ (x >>> 10)

/-- The 64 SHA-256 round constants (FIPS 180-4, written in decimal). -/
def kSHA : List Nat :=
  [1116352408, 1899447441, 3049323471, 3921009573, 961987163,
   1508970993, 2453635748, 2870763221, 3624381080, 310598401,
   607225278, 1426881987, 1925078388, 2162078206, 2614888103,
   3248222580, 3835390401, 4022224774, 264347078, 604807628,
   770255983, 1249150122, 1555081692, 1996064986, 2554220882,
   2821834349, 2952996808, 3210313671, 3336571891, 3584528711,
   113926993, 338241895, 666307205, 773529912, 1294757372,
   1396182291, 1695183700, 1986661051, 2177026350, 2456956037,
   2730485921, 2820302411, 3259730800, 3345764771, 3516065817,
   3600352804, 4094571909, 275423344, 430227734, 506948616,
   659060556, 883997877, 958139571, 1322822218, 1537002063,
   1747873779, 1955562222, 2024104815, 2227730452, 2361852424,
   2428436474, 2756734187, 3204031479, 3329325298]

/-- The SHA-256 initial hash value (FIPS 180-4, written in decimal). -/
def hInicial : List Nat :=
  [1779033703, 3144134277, 1013904242, 2773480762, 1359893119,
   2600822924, 528734635, 1541459225]

/-- A big-endian 32-bit word from four bytes. -/
def toWord (b0 b1 b2 b3 : Nat) : Nat :=
  (b0 <<< 24) + (b1 <<< 16) + (b2 <<< 8) + b3

/-- The first 16 words of the message schedule of a 64-byte block. -/
def w16 (bloque : List Nat) : List Nat :=
  (List.range 16).map fun i =>
    toWord (bloque.getD (4 * i) 0) (bloque.getD (4 * i + 1) 0)
      (bloque.getD (4 * i + 2) 0) (bloque.getD (4 * i + 3) 0)

/-- Extends the message schedule by `n` further words. -/
def extiende : Nat → List Nat → List Nat
  | 0, w => w
  | n + 1, w =>
    let i := w.length
    extiende n (w ++ [(w.getD (i - 16) 0 + smallSigma0 (w.getD (i - 15) 0) +
      w.getD (i - 7) 0 + smallSigma1 (w.getD (i - 2) 0)) % w32])

/-- One SHA-256 round; `kw` is the already-added `Kᵢ + Wᵢ`. -/
def ronda (st : List Nat) (kw : Nat) : List Nat :=
  let a := st.getD 0 0
  let b := st.getD 1 0
  let c := st.getD 2 0
  let d := st.getD 3 0
  let e := st.getD 4 0
  let f := st.getD 5 0
  let g := st.getD 6 0
  let h := st.getD 7 0
  let t1 := (h + bigSigma1 e + ch e f g + kw) % w32
  let t2 := (bigSigma0 a + maj a b c) % w32
  [(t1 + t2) % w32, a, b, c, (d + t1) % w32, e, f, g]

/-- The SHA-256 compression function on one 64-byte block. -/
def comprime (hs bloque : List Nat) : List Nat :=
  let w := extiende 48 (w16 bloque)
  let st := (w.zip kSHA).foldl (fun s p => ronda s ((p.2 + p.1) % w32)) hs
  (hs.zip st).map fun p => (p.1 + p.2) % w32

/-- SHA-256 padding: `0x80`, zeros to 56 mod 64, 8-byte big-endian bit length. -/
def relleno (msg : List Nat) : List Nat :=
  let len := msg.length
  msg ++ [128] ++ List.replicate ((119 - len % 64) % 64) 0 ++
    (List.range 8).map fun i => ((8 * len) >>> (8 * (7 - i))) % 256

/-- Splits a list into `n` consecutive 64-byte blocks. -/
def trocear : Nat → List Nat → List (List Nat)
  | 0, _ => []
  | n + 1, l => l.take 64 :: trocear n (l.drop 64)

/-- The eight 32-bit words of the SHA-256 digest of a message. -/
def sha256palabras (msg : List Nat) : List Nat :=
  let p := relleno msg
  (trocear (p.length / 64) p).foldl comprime hInicial

/-- The four big-endian bytes of a 32-bit word. -/
def octetos (w : Nat) : List Nat :=
  [(w >>> 24) % 256, (w >>> 16) % 256, (w >>> 8) % 256, w % 256]

/-- The SHA-256 digest of a byte string: 32 bytes. -/
def sha256 (msg : List Nat) : List Nat :=
  (sha256palabras msg).flatMap octetos

/-- A lowercase hexadecimal digit character. -/
def hexChar (n : Nat) : Char :=
  Char.ofNat (if n < 10 then 48 + n else 87 + n)

/-- `hexdigest`: the 64-character lowercase hexadecimal digest string. -/
def sha256hex (msg : List Nat) : String :=
  String.mk ((sha256 msg).flatMap fun b => [hexChar (b / 16), hexChar (b % 16)])

/-! ## `obtener_hash`: the Fingerprinter

A readable file is `some` byte list; `open`/`read` raising is `none`.
The `while True` read loop is embedded with structural fuel (one unit per
iteration suffices, since every iteration consumes at least one byte); the
SHA-256 accumulator state is the byte sequence absorbed so far. -/

/-- The read loop: absorbs 4096-byte chunks into the accumulator until the
stream is exhausted. -/
def leer_bloques : Nat → List Nat → List Nat → List Nat
  | 0, _, acumulado => acumulado
  | _ + 1, [], acumulado => acumulado
  | n + 1, b :: resto, acumulado =>
    leer_bloques n ((b :: resto).drop 4096) (acumulado ++ (b :: resto).take 4096)

/-- All bytes absorbed by the chunked read loop on a given content. -/
def absorber (contenido : List Nat) : List Nat :=
  leer_bloques (contenido.length + 1) contenido []

/-- `obtener_hash`: `None` when the file cannot be opened or read, otherwise
the hexadecimal SHA-256 digest of the absorbed chunks. -/
def obtener_hash : Option (List Nat) → Option String
  | none => none
  | some contenido => some (sha256hex (absorber contenido))

/-! ## `buscar_duplicados`: the Grouper

The walk result is the list of `(path, content?)` pairs in traversal order.
The insertion-ordered `dict` is an association list: a new key is appended
at the end, a new path is appended at the end of its group. -/

/-- `duplicados[hash].append(ruta)`, creating the key if absent. -/
def agregar (d : List (String × List String)) (h ruta : String) :
    List (String × List String) :=
  if d.any fun p => p.1 == h then
    d.map fun p => if p.1 == h then (p.1, p.2 ++ [ruta]) else p
  else d ++ [(h, [ruta])]

/-- Processing of one walked file: hash it and record it, or skip it. -/
def paso_escaneo (d : List (String × List String))
    (f : String × Option (List Nat)) : List (String × List String) :=
  match obtener_hash f.2 with
  | none => d
  | some h => agregar d h f.1

/-- `buscar_duplicados`: hash every reachable file, group paths by digest,
keep only the groups with more than one path. -/
def buscar_duplicados (archivos : List (String × Option (List Nat))) :
    List (String × List String) :=
  (archivos.foldl paso_escaneo []).filter fun p => decide (1 < p.2.length)

/-- The paths of the readable walked files whose digest is `h`, in
traversal order (specification of a group's contents). -/
def rutas_con_hash (archivos : List (String × Option (List Nat))) (h : String) :
    List String :=
  archivos.filterMap fun f =>
    match obtener_hash f.2 with
    | some h2 => if h2 = h then some f.1 else none
    | none => none

/-! ## `archivo_mas_reciente`: the Retention Resolver

Modification times are an oracle `String → Option Int`: `none` means
`os.path.getmtime` raises, in which case the code substitutes `0`.
Python's `max(xs, key=...)` keeps the first element with the maximal key:
a later element replaces the current best only when strictly greater. -/

/-- The effective modification time: the stat result, or `0` on failure. -/
def fecha_mod (fs : String → Option Int) (ruta : String) : Int :=
  match fs ruta with
  | some t => t
  | none => 0

/-- The list `rutas_con_fechas` of `(path, effective mtime)` pairs. -/
def rutas_con_fechas (fs : String → Option Int) (rutas : List String) :
    List (String × Int) :=
  rutas.map fun ruta => (ruta, fecha_mod fs ruta)

/-- One comparison step of Python's `max` with a key function. -/
def paso_max (a y : String × Int) : String × Int :=
  if a.2 < y.2 then y else a

/-- Python's `max(l, key=lambda x: x[1])`: `none` on the empty list
(where `max` raises `ValueError`). -/
def max_por_fecha : List (String × Int) → Option (String × Int)
  | [] => none
  | x :: xs => some (xs.foldl paso_max x)

/-- `archivo_mas_reciente`: the kept (most recent) path and the list of
copies to delete; `none` models the `ValueError` on an empty group. -/
def archivo_mas_reciente (fs : String → Option Int) (rutas : List String) :
    Option (String × List String) :=
  match max_por_fecha (rutas_con_fechas fs rutas) with
  | none => none
  | some m => some (m.1, rutas.filter fun ruta => decide (ruta ≠ m.1))

/-! ## `eliminar_duplicados`: the Executor

`os.remove` success is an oracle `String → Bool`.  The result is the final
success counter together with the log of attempted deletions in order,
each tagged with its outcome. -/

/-- One `os.remove` attempt inside the `try`/`except`: a success increments
the counter, a failure is reported and the loop continues. -/
def intentar_borrado (borrar : String → Bool)
    (acc : Nat × List (String × Bool)) (copia : String) :
    Nat × List (String × Bool) :=
  if borrar copia then (acc.1 + 1, acc.2 ++ [(copia, true)])
  else (acc.1, acc.2 ++ [(copia, false)])

/-- The group loop of `eliminar_duplicados`; `none` models the uncaught
`ValueError` that `max` would raise on an empty group. -/
def eliminar_lista (fs : String → Option Int) (borrar : String → Bool) :
    List (String × List String) → Nat × List (String × Bool) →
    Option (Nat × List (String × Bool))
  | [], acc => some acc
  | g :: resto, acc =>
    match archivo_mas_reciente fs g.2 with
    | none => none
    | some m => eliminar_lista fs borrar resto (m.2.foldl (intentar_borrado borrar) acc)

/-- `eliminar_duplicados`: delete every non-kept copy of every group,
counting the successful removals. -/
def eliminar_duplicados (fs : String → Option Int) (borrar : String → Bool)
    (duplicados : List (String × List String)) :
    Option (Nat × List (String × Bool)) :=
  eliminar_lista fs borrar duplicados (0, [])

/-- The concatenation of every group's delete candidates, in order
(specification of which removals are attempted). -/
def candidatos (fs : String → Option Int)
    (duplicados : List (String × List String)) : List String :=
  duplicados.flatMap fun g =>
    match archivo_mas_reciente fs g.2 with
    | some m => m.2
    | none => []

/-! ## `main`: the entry point

Modelled as the trace of observable events.  `es_dir` is the
`os.path.isdir` verdict on the supplied root, `archivos` the walk result,
`respuesta` the raw confirmation input.  Python's `.strip().lower()` is
embedded directly (ASCII whitespace strip, ASCII lowercasing). -/

/-- Python `str.strip` whitespace. -/
def esEspacio (c : Char) : Bool :=
  c = ' ' || c = '\t' || c = '\n' || c = '\r' || c = '\x0b' || c = '\x0c'

/-- Python `str.lower` on one ASCII character. -/
def minuscula (c : Char) : Char :=
  if 65 ≤ c.toNat ∧ c.toNat ≤ 90 then Char.ofNat (c.toNat + 32) else c

/-- `respuesta.strip().lower()`. -/
def normaliza (s : String) : String :=
  String.mk ((((s.data.dropWhile esEspacio).reverse.dropWhile
    esEspacio).reverse).map minuscula)

/-- The observable events of a run of `main`. -/
inductive Evento where
  | rutaInvalida : Evento
  | escaneo (grupos : List (String × List String)) : Evento
  | sinDuplicados : Evento
  | reporte (grupos : List (String × List String)) : Evento
  | borrado (ruta : String) (exito : Bool) : Evento
  | resumen (total : Nat) : Evento
  | cancelado : Evento
  | excepcion : Evento
  deriving DecidableEq

namespace Programa

/-- `main`: validate the root, scan (`escaneo` marks the invocation of
`buscar_duplicados`, hence of all fingerprinting), report, confirm, and
delete only on the exact affirmative. -/
def main (es_dir : Bool) (archivos : List (String × Option (List Nat)))
    (fs : String → Option Int) (borrar : String → Bool)
    (respuesta : String) : List Evento :=
  if es_dir = false then [.rutaInvalida]
  else
    let grupos := buscar_duplicados archivos
    if grupos = [] then [.escaneo grupos, .sinDuplicados]
    else if normaliza respuesta = "si" then
      match eliminar_duplicados fs borrar grupos with
      | some r =>
        [.escaneo grupos, .reporte grupos] ++
          r.2.map (fun e => .borrado e.1 e.2) ++ [.resumen r.1]
      | none => [.escaneo grupos, .reporte grupos, .excepcion]
    else [.escaneo grupos, .reporte grupos, .cancelado]

end Programa

/-! ## Specification functions -/

/-- The deletion log produced by attempting every candidate in order. -/
def registro (borrar : String → Bool) (copias : List String) :
    List (String × Bool) :=
  copias.map fun c => (c, borrar c)

/-- Invariant of the scanning fold: the dictionary entries are exactly the
nonempty per-digest path lists of the processed prefix. -/
def InvEscaneo (procesados : List (String × Option (List Nat)))
    (d : List (String × List String)) : Prop :=
  ∀ h rutas, ((h, rutas) ∈ d ↔
    (rutas = rutas_con_hash procesados h ∧ rutas ≠ []))

/-- The numeric value of a lowercase hexadecimal digit character. -/
def hexVal (c : Char) : Nat :=
  if c.toNat ≤ 57 then c.toNat - 48 else c.toNat - 87

/-- Decodes a hexadecimal character string back into bytes. -/
def hexDecode : List Char → List Nat
  | c1 :: c2 :: resto => (16 * hexVal c1 + hexVal c2) :: hexDecode resto
  | _ => []

/-! ## Concrete fixtures used by counterexamples and witnesses -/

/-- `b` has the valid epoch timestamp `0`, every other path is unstattable. -/
def fs_ejemplo : String → Option Int := fun r => if r = "b" then some 0 else none

/-- `a` and `b` share the maximal timestamp `5`, `c` is older, the rest is
unstattable. -/
def fs_testigo : String → Option Int := fun r =>
  if r = "a" then some 5
  else if r = "b" then some 5
  else if r = "c" then some 3
  else none

/-- `b` has a strictly positive timestamp, every other path is unstattable. -/
def fs_positivo : String → Option Int := fun r => if r = "b" then some 5 else none

/-- Only the removal of `c` succeeds. -/
def borrar_testigo : String → Bool := fun r => r == "c"

/-- A walk with two byte-identical files. -/
def archivos_dup : List (String × Option (List Nat)) :=
  [("a", some [0]), ("b", some [0])]

/-- The same walk in the opposite traversal order. -/
def archivos_rev : List (String × Option (List Nat)) :=
  [("b", some [0]), ("a", some [0])]

/-- A walk with an unreadable file and two byte-identical readable ones. -/
def archivos_ileg : List (String × Option (List Nat)) :=
  [("x", none), ("a", some [0]), ("b", some [0])]

/-- A walk whose two files have distinct contents. -/
def archivos_unicos : List (String × Option (List Nat)) :=
  [("a", some [0]), ("b", some [1])]

/-! ## Lemmas on Python's `max(…, key=…)` -/

lemma paso_max_cases (a y : String × Int) : paso_max a y = a ∨ paso_max a y = y := by
  unfold paso_max; split <;> simp

lemma paso_max_le_left (a y : String × Int) : a.2 ≤ (paso_max a y).2 := by
  unfold paso_max; split <;> omega

lemma paso_max_le_right (a y : String × Int) : y.2 ≤ (paso_max a y).2 := by
  unfold paso_max; split <;> omega

lemma foldl_paso_max_mem :
    ∀ (l : List (String × Int)) (x : String × Int), l.foldl paso_max x ∈ x :: l := by
  intro l
  induction l with
  | nil => intro x; simp
  | cons z zs ih =>
    intro x
    simp only [List.foldl_cons]
    have h1 := ih (paso_max x z)
    simp only [List.mem_cons] at h1 ⊢
    rcases h1 with h1 | h1
    · rcases paso_max_cases x z with h | h
      · exact Or.inl (h1.trans h)
      · exact Or.inr (Or.inl (h1.trans h))
    · exact Or.inr (Or.inr h1)

lemma foldl_paso_max_ge :
    ∀ (l : List (String × Int)) (x : String × Int),
      ∀ y ∈ x :: l, y.2 ≤ (l.foldl paso_max x).2 := by
  intro l
  induction l with
  | nil => intro x y hy; simp at hy; simp [hy]
  | cons z zs ih =>
    intro x y hy
    simp only [List.foldl_cons]
    simp only [List.mem_cons] at hy
    rcases hy with rfl | rfl | hy
    · exact le_trans (paso_max_le_left y z) (ih (paso_max y z) _ (by simp))
    · exact le_trans (paso_max_le_right x y) (ih (paso_max x y) _ (by simp))
    · exact ih (paso_max x z) y (by simp [hy])

lemma foldl_paso_max_first :
    ∀ (l : List (String × Int)) (x : String × Int),
      ∃ l1 l2, x :: l = l1 ++ (l.foldl paso_max x) :: l2 ∧
        ∀ y ∈ l1, y.2 < (l.foldl paso_max x).2 := by
  intro l
  induction l with
  | nil => intro x; exact ⟨[], [], by simp, by simp⟩
  | cons z zs ih =>
    intro x
    simp only [List.foldl_cons]
    by_cases h : x.2 < z.2
    · have hz : paso_max x z = z := by unfold paso_max; exact if_pos h
      rw [hz]
      obtain ⟨l1, l2, heq, hlt⟩ := ih z
      refine ⟨x :: l1, l2, by rw [List.cons_append, ← heq], ?_⟩
      intro y hy
      rcases List.mem_cons.mp hy with rfl | hy
      · have hzle : z.2 ≤ (zs.foldl paso_max z).2 :=
          foldl_paso_max_ge zs z z (by simp)
        omega
      · exact hlt y hy
    · have hx : paso_max x z = x := by unfold paso_max; exact if_neg h
      rw [hx]
      obtain ⟨l1, l2, heq, hlt⟩ := ih x
      cases l1 with
      | nil =>
        simp only [List.nil_append, List.cons.injEq] at heq
        exact ⟨[], z :: l2, by rw [List.nil_append, ← heq.1, ← heq.2], by simp⟩
      | cons w l1t =>
        simp only [List.cons_append, List.cons.injEq] at heq
        obtain ⟨rfl, heq2⟩ := heq
        refine ⟨x :: z :: l1t, l2,
          by rw [List.cons_append, List.cons_append, ← heq2], ?_⟩
        intro y hy
        have hxlt : x.2 < (zs.foldl paso_max x).2 := hlt x (by simp)
        rcases List.mem_cons.mp hy with rfl | hy
        · exact hxlt
        · rcases List.mem_cons.mp hy with rfl | hy
          · omega
          · exact hlt y (by simp [hy])

/-- The paths of `rutas_con_fechas` are exactly `rutas`. -/
lemma rutas_con_fechas_fst (fs : String → Option Int) :
    ∀ rutas : List String, (rutas_con_fechas fs rutas).map Prod.fst = rutas := by
  intro rutas
  induction rutas with
  | nil => rfl
  | cons r rs ih => simpa [rutas_con_fechas] using ih

lemma mem_rutas_con_fechas (fs : String → Option Int) (rutas : List String)
    (m : String × Int) (hm : m ∈ rutas_con_fechas fs rutas) :
    m.1 ∈ rutas ∧ m.2 = fecha_mod fs m.1 := by
  simp only [rutas_con_fechas, List.mem_map] at hm
  obtain ⟨r, hr, rfl⟩ := hm
  exact ⟨hr, rfl⟩

/-- Characterisation of a successful `archivo_mas_reciente` result: the kept
path is a member whose effective timestamp is maximal, and the copies are
the members that differ from it. -/
lemma archivo_mas_reciente_spec (fs : String → Option Int) (rutas : List String)
    (conservado : String) (copias : List String)
    (hres : archivo_mas_reciente fs rutas = some (conservado, copias)) :
    conservado ∈ rutas ∧
    (∀ r ∈ rutas, fecha_mod fs r ≤ fecha_mod fs conservado) ∧
    copias = rutas.filter fun ruta => decide (ruta ≠ conservado) := by
  cases rutas with
  | nil => simp [archivo_mas_reciente, rutas_con_fechas, max_por_fecha] at hres
  | cons r0 resto =>
    have hrcf : rutas_con_fechas fs (r0 :: resto) =
        (r0, fecha_mod fs r0) :: rutas_con_fechas fs resto := by
      simp [rutas_con_fechas]
    simp only [archivo_mas_reciente, hrcf, max_por_fecha, Option.some.injEq] at hres
    set m := (rutas_con_fechas fs resto).foldl paso_max (r0, fecha_mod fs r0) with hmdef
    have hmem : m ∈ (r0, fecha_mod fs r0) :: rutas_con_fechas fs resto :=
      foldl_paso_max_mem _ _
    rw [← hrcf] at hmem
    obtain ⟨hm1, hm2⟩ := mem_rutas_con_fechas fs _ m hmem
    have h1 : m.1 = conservado := congrArg Prod.fst hres
    have h2 : (r0 :: resto).filter (fun ruta => decide (ruta ≠ m.1)) = copias :=
      congrArg Prod.snd hres
    subst h1
    refine ⟨hm1, ?_, h2.symm⟩
    intro r hr
    have hin : (r, fecha_mod fs r) ∈ rutas_con_fechas fs (r0 :: resto) := by
      simp only [rutas_con_fechas]
      exact List.mem_map_of_mem _ hr
    rw [hrcf] at hin
    have := foldl_paso_max_ge (rutas_con_fechas fs resto) (r0, fecha_mod fs r0)
      (r, fecha_mod fs r) hin
    rw [← hmdef, hm2] at this
    exact this

/-- A nonempty group always yields a retention decision. -/
lemma archivo_mas_reciente_isSome (fs : String → Option Int) (rutas : List String)
    (hne : rutas ≠ []) : ∃ m, archivo_mas_reciente fs rutas = some m := by
  cases rutas with
  | nil => exact absurd rfl hne
  | cons r0 resto =>
    simp only [archivo_mas_reciente, rutas_con_fechas, List.map_cons, max_por_fecha]
    exact ⟨_, rfl⟩

/-- **C1.** For every duplicate group with pairwise-distinct member paths,
`archivo_mas_reciente` selects exactly one kept path, a member whose
effective modification timestamp is maximal, and the delete list is exactly
the group members minus the kept one (union is the group, intersection is
empty). -/
theorem archivo_mas_reciente_correcto (fs : String → Option Int)
    (rutas : List String) (hne : rutas ≠ []) (hnd : rutas.Nodup) :
    ∃ conservado copias,
      archivo_mas_reciente fs rutas = some (conservado, copias) ∧
      conservado ∈ rutas ∧
      (∀ r ∈ rutas, fecha_mod fs r ≤ fecha_mod fs conservado) ∧
      (∀ r, r ∈ copias ↔ (r ∈ rutas ∧ r ≠ conservado)) ∧
      conservado ∉ copias ∧ copias.Nodup := by
  obtain ⟨⟨conservado, copias⟩, hres⟩ := archivo_mas_reciente_isSome fs rutas hne
  obtain ⟨hmem, hmax, hcop⟩ := archivo_mas_reciente_spec fs rutas conservado copias hres
  refine ⟨conservado, copias, hres, hmem, hmax, ?_, ?_, ?_⟩
  · intro r
    subst hcop
    simp
  · subst hcop
    simp
  · subst hcop
    exact hnd.filter _

/-- **C2, counterexample.** In the group `["a", "b"]`, path `a` has no
readable timestamp while `b` has the valid timestamp `0`; the resolver
nevertheless keeps `a` (the substitute `0` ties with `b` and Python's
`max` keeps the first), refuting the claim that an unstatable member is
never kept when another member has a valid timestamp. -/
theorem fecha_ilegible_contraejemplo :
    fs_ejemplo "a" = none ∧ fs_ejemplo "b" = some 0 ∧
    archivo_mas_reciente fs_ejemplo ["a", "b"] = some ("a", ["b"]) := by decide

/-- **C2 (amended).** A member whose modification timestamp cannot be read
is assigned the substitute timestamp `0`, and it is never selected as
"keep" whenever some other member of the group has a valid strictly
positive timestamp. -/
theorem fecha_ilegible_no_conservado (fs : String → Option Int)
    (rutas : List String) (r : String) (hr : r ∈ rutas) (hnone : fs r = none)
    (r2 : String) (t : Int) (hr2 : r2 ∈ rutas) (ht : fs r2 = some t)
    (htpos : 0 < t) (conservado : String) (copias : List String)
    (hres : archivo_mas_reciente fs rutas = some (conservado, copias)) :
    fecha_mod fs r = 0 ∧ conservado ≠ r := by
  obtain ⟨hmem, hmax, hcop⟩ := archivo_mas_reciente_spec fs rutas conservado copias hres
  have hr0 : fecha_mod fs r = 0 := by simp [fecha_mod, hnone]
  refine ⟨hr0, ?_⟩
  intro hcontra
  have h2 : fecha_mod fs r2 ≤ fecha_mod fs conservado := hmax r2 hr2
  rw [hcontra, hr0] at h2
  simp [fecha_mod, ht] at h2
  omega

/-- **C10.** When several members share the maximal effective timestamp the
resolver keeps the first of them in traversal order: the `(path, mtime)`
list decomposes as `l1 ++ (kept, its mtime) :: l2` with every entry of `l1`
strictly older; moreover the whole decision is a deterministic function of
the ordered `(path, mtime)` list. -/
theorem archivo_mas_reciente_primero (fs : String → Option Int)
    (rutas : List String) (conservado : String) (copias : List String)
    (hres : archivo_mas_reciente fs rutas = some (conservado, copias)) :
    (∃ l1 l2, rutas_con_fechas fs rutas =
        l1 ++ (conservado, fecha_mod fs conservado) :: l2 ∧
        ∀ y ∈ l1, y.2 < fecha_mod fs conservado) ∧
    (∀ (fs2 : String → Option Int) (rutas2 : List String),
      rutas_con_fechas fs rutas = rutas_con_fechas fs2 rutas2 →
      archivo_mas_reciente fs2 rutas2 = some (conservado, copias)) := by
  constructor
  · cases rutas with
    | nil => simp [archivo_mas_reciente, rutas_con_fechas, max_por_fecha] at hres
    | cons r0 resto =>
      have hrcf : rutas_con_fechas fs (r0 :: resto) =
          (r0, fecha_mod fs r0) :: rutas_con_fechas fs resto := by
        simp [rutas_con_fechas]
      simp only [archivo_mas_reciente, hrcf, max_por_fecha, Option.some.injEq] at hres
      set m := (rutas_con_fechas fs resto).foldl paso_max (r0, fecha_mod fs r0)
        with hmdef
      have hmem : m ∈ (r0, fecha_mod fs r0) :: rutas_con_fechas fs resto :=
        foldl_paso_max_mem _ _
      rw [← hrcf] at hmem
      obtain ⟨hm1, hm2⟩ := mem_rutas_con_fechas fs _ m hmem
      obtain ⟨l1, l2, heq, hlt⟩ :=
        foldl_paso_max_first (rutas_con_fechas fs resto) (r0, fecha_mod fs r0)
      rw [← hrcf, ← hmdef] at heq
      have h1 : m.1 = conservado := congrArg Prod.fst hres
      have hmpair : m = (conservado, fecha_mod fs conservado) := by
        rw [Prod.ext_iff]
        exact ⟨h1, by rw [hm2, h1]⟩
      refine ⟨l1, l2, by rw [← hmpair]; exact heq, ?_⟩
      intro y hy
      have := hlt y hy
      rw [← hmdef, hmpair] at this
      exact this
  · intro fs2 rutas2 heq
    have hr : rutas2 = rutas := by
      have h1 := congrArg (List.map Prod.fst) heq
      rw [rutas_con_fechas_fst, rutas_con_fechas_fst] at h1
      exact h1.symm
    subst hr
    have : archivo_mas_reciente fs2 rutas2 = archivo_mas_reciente fs rutas2 := by
      simp only [archivo_mas_reciente, ← heq]
    rw [this]
    exact hres

/-! ## Lemmas on the Executor -/

lemma foldl_intentar_borrado (borrar : String → Bool) :
    ∀ (copias : List String) (acc : Nat × List (String × Bool)),
      copias.foldl (intentar_borrado borrar) acc =
        (acc.1 + ((registro borrar copias).filter fun e => e.2).length,
         acc.2 ++ registro borrar copias) := by
  intro copias
  induction copias with
  | nil => intro acc; simp [registro]
  | cons c cs ih =>
    intro acc
    simp only [List.foldl_cons]
    rw [ih]
    unfold intentar_borrado registro
    by_cases hb : borrar c <;> simp [hb, registro, List.filter_cons] <;> omega

lemma eliminar_lista_spec (fs : String → Option Int) (borrar : String → Bool) :
    ∀ (dups : List (String × List String)) (acc : Nat × List (String × Bool)),
      (∀ g ∈ dups, g.2 ≠ []) →
      eliminar_lista fs borrar dups acc =
        some (acc.1 + ((registro borrar (candidatos fs dups)).filter fun e => e.2).length,
              acc.2 ++ registro borrar (candidatos fs dups)) := by
  intro dups
  induction dups with
  | nil => intro acc _; simp [eliminar_lista, candidatos, registro]
  | cons g resto ih =>
    intro acc h
    have hg : g.2 ≠ [] := h g (by simp)
    obtain ⟨⟨con, cop⟩, hm⟩ := archivo_mas_reciente_isSome fs g.2 hg
    simp only [eliminar_lista, hm]
    rw [foldl_intentar_borrado, ih _ (fun g2 hg2 => h g2 (by simp [hg2]))]
    have hcand : candidatos fs (g :: resto) = cop ++ candidatos fs resto := by
      simp [candidatos, hm]
    rw [hcand]
    simp only [registro, List.map_append, List.filter_append, List.length_append]
    rw [Nat.add_assoc, List.append_assoc]

/-! ## Lemmas on the Fingerprinter -/

lemma leer_bloques_eq :
    ∀ (n : Nat) (restante acumulado : List Nat), restante.length < n →
      leer_bloques n restante acumulado = acumulado ++ restante := by
  intro n
  induction n with
  | zero => intro r _ h; exact absurd h (Nat.not_lt_zero _)
  | succ n ih =>
    intro r a h
    cases r with
    | nil => simp [leer_bloques]
    | cons b resto =>
      simp only [leer_bloques]
      rw [ih]
      · rw [List.append_assoc, List.take_append_drop]
      · have h1 : ((b :: resto).drop 4096).length = (b :: resto).length - 4096 :=
          List.length_drop ..
        simp only [List.length_cons] at h1 h ⊢
        omega

/-- The chunked read loop absorbs exactly the file's full byte content. -/
lemma absorber_eq (contenido : List Nat) : absorber contenido = contenido := by
  unfold absorber
  rw [leer_bloques_eq _ _ _ (Nat.lt_succ_self _)]
  simp

lemma obtener_hash_some (c : List Nat) :
    obtener_hash (some c) = some (sha256hex c) := by
  simp [obtener_hash, absorber_eq]

lemma ronda_length (st : List Nat) (kw : Nat) : (ronda st kw).length = 8 := rfl

lemma foldl_ronda_length (l : List (Nat × Nat)) (hs : List Nat)
    (h8 : hs.length = 8) :
    (l.foldl (fun s p => ronda s ((p.2 + p.1) % w32)) hs).length = 8 := by
  induction l generalizing hs with
  | nil => simpa
  | cons x xs ih => exact ih _ (ronda_length _ _)

lemma comprime_length (hs bloque : List Nat) (h8 : hs.length = 8) :
    (comprime hs bloque).length = 8 := by
  unfold comprime
  rw [List.length_map, List.length_zip, h8, foldl_ronda_length _ _ h8]
  simp

lemma foldl_comprime_length :
    ∀ (bloques : List (List Nat)) (hs : List Nat), hs.length = 8 →
      (bloques.foldl comprime hs).length = 8 := by
  intro bloques
  induction bloques with
  | nil => intro hs h; simpa
  | cons b bs ih => intro hs h; exact ih _ (comprime_length _ _ h)

lemma sha256palabras_length (msg : List Nat) : (sha256palabras msg).length = 8 :=
  foldl_comprime_length _ _ rfl

lemma flatMap_octetos_length :
    ∀ l : List Nat, (l.flatMap octetos).length = 4 * l.length := by
  intro l
  induction l with
  | nil => rfl
  | cons x xs ih =>
    have h1 : (x :: xs).flatMap octetos = octetos x ++ xs.flatMap octetos := rfl
    rw [h1, List.length_append, ih]
    simp [octetos]
    omega

/-- The SHA-256 digest has the fixed length of 32 bytes. -/
lemma sha256_length (msg : List Nat) : (sha256 msg).length = 32 := by
  unfold sha256
  rw [flatMap_octetos_length, sha256palabras_length]

lemma flatMap_hex_length :
    ∀ l : List Nat,
      (l.flatMap fun b => [hexChar (b / 16), hexChar (b % 16)]).length =
        2 * l.length := by
  intro l
  induction l with
  | nil => rfl
  | cons x xs ih =>
    have h1 : ((x :: xs).flatMap fun b => [hexChar (b / 16), hexChar (b % 16)]) =
        hexChar (x / 16) :: hexChar (x % 16) ::
          (xs.flatMap fun b => [hexChar (b / 16), hexChar (b % 16)]) := rfl
    rw [h1]
    simp only [List.length_cons, ih]
    omega

/-- `hexdigest` has the fixed length of 64 hexadecimal characters. -/
lemma sha256hex_length (msg : List Nat) : (sha256hex msg).length = 64 := by
  have h1 : (sha256hex msg).length =
      ((sha256 msg).flatMap fun b => [hexChar (b / 16), hexChar (b % 16)]).length :=
    rfl
  rw [h1, flatMap_hex_length, sha256_length]

lemma octetos_lt (w : Nat) : ∀ b ∈ octetos w, b < 256 := by
  intro b hb
  simp only [octetos, List.mem_cons, List.not_mem_nil, or_false] at hb
  rcases hb with rfl | rfl | rfl | rfl <;> exact Nat.mod_lt _ (by norm_num)

lemma sha256_bytes_lt (msg : List Nat) : ∀ b ∈ sha256 msg, b < 256 := by
  intro b hb
  unfold sha256 at hb
  rw [List.mem_flatMap] at hb
  obtain ⟨w, _, hw⟩ := hb
  exact octetos_lt w b hw

lemma hexVal_hexChar : ∀ n < 16, hexVal (hexChar n) = n := by decide

lemma hexDecode_encode :
    ∀ l : List Nat, (∀ b ∈ l, b < 256) →
      hexDecode (l.flatMap fun b => [hexChar (b / 16), hexChar (b % 16)]) = l := by
  intro l
  induction l with
  | nil => intro _; rfl
  | cons b bs ih =>
    intro hlt
    have h1 : ((b :: bs).flatMap fun x => [hexChar (x / 16), hexChar (x % 16)]) =
        hexChar (b / 16) :: hexChar (b % 16) ::
          (bs.flatMap fun x => [hexChar (x / 16), hexChar (x % 16)]) := rfl
    rw [h1]
    have hdiv : b / 16 < 16 := by
      have := hlt b (by simp)
      omega
    rw [hexDecode, hexVal_hexChar _ hdiv,
      hexVal_hexChar _ (Nat.mod_lt _ (by norm_num)), Nat.div_add_mod,
      ih fun x hx => hlt x (by simp [hx])]

/-- Equal hexadecimal digest strings come from equal byte digests. -/
lemma sha256hex_inyectiva (c1 c2 : List Nat)
    (h : sha256hex c1 = sha256hex c2) : sha256 c1 = sha256 c2 := by
  have hl : ((sha256 c1).flatMap fun b => [hexChar (b / 16), hexChar (b % 16)]) =
      ((sha256 c2).flatMap fun b => [hexChar (b / 16), hexChar (b % 16)]) :=
    congrArg String.data h
  have e1 := hexDecode_encode (sha256 c1) (sha256_bytes_lt c1)
  have e2 := hexDecode_encode (sha256 c2) (sha256_bytes_lt c2)
  rw [← e1, ← e2, hl]

/-- **C3.** The Fingerprinter feeds the file's full content in 4096-byte
chunks into the SHA-256 accumulator (`absorber c = c`) and returns the
fixed-length digest: 32 bytes, rendered as 64 hexadecimal characters; two
digests are equal exactly when the contents are identical, given that the
two contents do not form a SHA-256 collision (the claim's
"collisions treated as negligible"). -/
theorem obtener_hash_espec (c1 c2 : List Nat)
    (hcoll : sha256 c1 = sha256 c2 → c1 = c2) :
    obtener_hash (some c1) = some (sha256hex c1) ∧
    absorber c1 = c1 ∧
    (sha256 c1).length = 32 ∧
    (sha256hex c1).length = 64 ∧
    (obtener_hash (some c1) = obtener_hash (some c2) ↔ c1 = c2) := by
  refine ⟨obtener_hash_some c1, absorber_eq c1, sha256_length c1,
    sha256hex_length c1, ?_, ?_⟩
  · intro h
    rw [obtener_hash_some, obtener_hash_some] at h
    exact hcoll (sha256hex_inyectiva c1 c2 (Option.some.inj h))
  · intro h
    rw [h]

/-! ## Lemmas on the Grouper -/

lemma rutas_con_hash_append (a1 a2 : List (String × Option (List Nat)))
    (h : String) :
    rutas_con_hash (a1 ++ a2) h = rutas_con_hash a1 h ++ rutas_con_hash a2 h := by
  simp [rutas_con_hash, List.filterMap_append]

lemma rutas_con_hash_uno_none (f : String × Option (List Nat))
    (hh : obtener_hash f.2 = none) (h : String) : rutas_con_hash [f] h = [] := by
  simp [rutas_con_hash, hh]

lemma rutas_con_hash_uno_some (f : String × Option (List Nat)) (h0 : String)
    (hh : obtener_hash f.2 = some h0) (h : String) :
    rutas_con_hash [f] h = if h0 = h then [f.1] else [] := by
  by_cases e : h0 = h <;> simp [rutas_con_hash, hh, e]

lemma paso_escaneo_inv (procesados : List (String × Option (List Nat)))
    (d : List (String × List String)) (f : String × Option (List Nat))
    (hinv : InvEscaneo procesados d) :
    InvEscaneo (procesados ++ [f]) (paso_escaneo d f) := by
  intro h rutas
  unfold paso_escaneo
  rw [rutas_con_hash_append]
  cases hh : obtener_hash f.2 with
  | none =>
    rw [rutas_con_hash_uno_none f hh, List.append_nil]
    exact hinv h rutas
  | some h0 =>
    rw [rutas_con_hash_uno_some f h0 hh]
    unfold agregar
    dsimp only
    by_cases hpres : (d.any fun p => p.1 == h0) = true
    · rw [if_pos hpres]
      have hne0 : rutas_con_hash procesados h0 ≠ [] := by
        simp only [List.any_eq_true, beq_iff_eq] at hpres
        obtain ⟨⟨p1, p2⟩, hp, hp1⟩ := hpres
        subst hp1
        exact ((hinv p1 p2).mp hp).1 ▸ ((hinv p1 p2).mp hp).2
      constructor
      · intro hmem
        rw [List.mem_map] at hmem
        obtain ⟨⟨p1, p2⟩, hp, hgp⟩ := hmem
        by_cases hp0 : p1 = h0
        · subst hp0
          rw [if_pos (by simp)] at hgp
          have h1 : p1 = h := congrArg Prod.fst hgp
          have h2 : p2 ++ [f.1] = rutas := congrArg Prod.snd hgp
          subst h1
          obtain ⟨hv, _⟩ := (hinv p1 p2).mp hp
          rw [if_pos rfl, ← h2, hv]
          exact ⟨rfl, by simp⟩
        · rw [if_neg (by simpa using hp0)] at hgp
          have h1 : p1 = h := congrArg Prod.fst hgp
          have hne : h0 ≠ h := fun e => hp0 (h1.trans e.symm)
          rw [if_neg hne, List.append_nil]
          exact (hinv h rutas).mp (hgp ▸ hp)
      · rintro ⟨hv, hvne⟩
        by_cases he : h0 = h
        · subst he
          rw [if_pos rfl] at hv
          rw [List.mem_map]
          refine ⟨(h0, rutas_con_hash procesados h0),
            (hinv h0 _).mpr ⟨rfl, hne0⟩, ?_⟩
          rw [if_pos (by simp)]
          rw [hv]
        · rw [if_neg he, List.append_nil] at hv
          rw [List.mem_map]
          refine ⟨(h, rutas), (hinv h rutas).mpr ⟨hv, hvne⟩, ?_⟩
          rw [if_neg (by simpa using fun e : h = h0 => he e.symm)]
    · rw [if_neg hpres]
      have habs : rutas_con_hash procesados h0 = [] := by
        by_contra hne0
        apply hpres
        simp only [List.any_eq_true, beq_iff_eq]
        exact ⟨(h0, rutas_con_hash procesados h0),
          (hinv h0 _).mpr ⟨rfl, hne0⟩, rfl⟩
      rw [List.mem_append, List.mem_singleton]
      by_cases he : h0 = h
      · subst he
        rw [if_pos rfl, habs, List.nil_append]
        constructor
        · rintro (hmem | hpair)
          · obtain ⟨hv, hvne⟩ := (hinv h0 rutas).mp hmem
            rw [habs] at hv
            exact absurd hv hvne
          · have h2 : rutas = [f.1] := congrArg Prod.snd hpair
            exact ⟨h2, by simp [h2]⟩
        · rintro ⟨hv, _⟩
          right
          rw [hv]
      · rw [if_neg he, List.append_nil]
        constructor
        · rintro (hmem | hpair)
          · exact (hinv h rutas).mp hmem
          · exact absurd (congrArg Prod.fst hpair).symm he
        · rintro ⟨hv, hvne⟩
          exact Or.inl ((hinv h rutas).mpr ⟨hv, hvne⟩)

lemma foldl_paso_escaneo_inv :
    ∀ (files procesados : List (String × Option (List Nat)))
      (d : List (String × List String)),
      InvEscaneo procesados d →
      InvEscaneo (procesados ++ files) (files.foldl paso_escaneo d) := by
  intro files
  induction files with
  | nil => intro p d h; simpa using h
  | cons f fs ih =>
    intro p d h
    have h3 := ih (p ++ [f]) _ (paso_escaneo_inv p d f h)
    simpa [List.append_assoc] using h3

/-- The groups returned by `buscar_duplicados` are exactly the per-digest
path lists of the walk with more than one member. -/
lemma buscar_duplicados_caracterizacion
    (archivos : List (String × Option (List Nat))) (h : String)
    (rutas : List String) :
    (h, rutas) ∈ buscar_duplicados archivos ↔
      (rutas = rutas_con_hash archivos h ∧ 1 < rutas.length) := by
  have hinv : InvEscaneo archivos (archivos.foldl paso_escaneo []) := by
    have h0 : InvEscaneo [] [] := by
      intro h r
      simp [rutas_con_hash]
    simpa using foldl_paso_escaneo_inv archivos [] [] h0
  unfold buscar_duplicados
  rw [List.mem_filter]
  rw [hinv h rutas]
  constructor
  · rintro ⟨⟨hr, _⟩, hlen⟩
    exact ⟨hr, by simpa using hlen⟩
  · rintro ⟨hr, hlen⟩
    refine ⟨⟨hr, ?_⟩, by simpa using hlen⟩
    intro hnil
    rw [hnil] at hlen
    simp at hlen

/-- A member of a per-digest path list comes from a readable walked file
whose digest is the key. -/
lemma mem_rutas_con_hash_elim (archivos : List (String × Option (List Nat)))
    (h : String) (r : String) (hr : r ∈ rutas_con_hash archivos h) :
    ∃ c, (r, some c) ∈ archivos ∧ obtener_hash (some c) = some h := by
  simp only [rutas_con_hash, List.mem_filterMap] at hr
  obtain ⟨⟨f1, f2⟩, hf, hmatch⟩ := hr
  cases hh : obtener_hash f2 with
  | none => rw [hh] at hmatch; simp at hmatch
  | some h2 =>
    rw [hh] at hmatch
    dsimp only at hmatch
    by_cases he : h2 = h
    · rw [if_pos he] at hmatch
      have h1 : f1 = r := by simpa using hmatch
      cases hc : f2 with
      | none => rw [hc] at hh; simp [obtener_hash] at hh
      | some c =>
        subst h1
        subst hc
        exact ⟨c, hf, by rw [hh, he]⟩
    · rw [if_neg he] at hmatch
      simp at hmatch

/-- **C5.** A file that cannot be opened or read gets the failure indicator
`none` from the Fingerprinter (not a digest), and such a path never appears
in any group returned by `buscar_duplicados`. -/
theorem archivo_ilegible_excluido (archivos : List (String × Option (List Nat)))
    (ruta : String) (hin : (ruta, (none : Option (List Nat))) ∈ archivos)
    (hsolo : ∀ f ∈ archivos, f.1 = ruta → f.2 = none) :
    obtener_hash none = none ∧
    ∀ g ∈ buscar_duplicados archivos, ruta ∉ g.2 := by
  refine ⟨rfl, ?_⟩
  rintro ⟨h, rutas⟩ hg hmem
  rw [buscar_duplicados_caracterizacion] at hg
  rw [hg.1] at hmem
  obtain ⟨c, hc, hhash⟩ := mem_rutas_con_hash_elim archivos h ruta hmem
  have := hsolo (ruta, some c) hc rfl
  simp at this

/-- **C6.** Every group returned by `buscar_duplicados` has at least two
member paths and every member's digest equals the group key; and when no
digest is shared by two walked files (every per-digest path list has at
most one element) the returned mapping is empty. -/
theorem buscar_duplicados_invariantes
    (archivos : List (String × Option (List Nat))) :
    (∀ g ∈ buscar_duplicados archivos, 2 ≤ g.2.length ∧
      ∀ r ∈ g.2, ∃ c, (r, some c) ∈ archivos ∧
        obtener_hash (some c) = some g.1) ∧
    ((∀ h, (rutas_con_hash archivos h).length ≤ 1) →
      buscar_duplicados archivos = []) := by
  constructor
  · rintro ⟨h, rutas⟩ hg
    rw [buscar_duplicados_caracterizacion] at hg
    obtain ⟨hr, hlen⟩ := hg
    refine ⟨hlen, ?_⟩
    intro r hrin
    rw [hr] at hrin
    exact mem_rutas_con_hash_elim archivos h r hrin
  · intro hcount
    by_contra hne
    obtain ⟨⟨h, rutas⟩, hg⟩ := List.exists_mem_of_ne_nil _ hne
    rw [buscar_duplicados_caracterizacion] at hg
    obtain ⟨hr, hlen⟩ := hg
    have := hcount h
    rw [← hr] at this
    omega

/-- **C9.** The Grouper is a deterministic function of the walked snapshot:
the same snapshot yields the identical mapping, and a permutation of the
traversal (an unchanged snapshot walked in another order) yields groups
with the same keys and the same membership (the order inside a group may
differ, as a permutation). -/
theorem buscar_duplicados_determinista
    (archivos1 archivos2 : List (String × Option (List Nat)))
    (hperm : archivos1.Perm archivos2) :
    (archivos1 = archivos2 →
      buscar_duplicados archivos1 = buscar_duplicados archivos2) ∧
    ∀ g ∈ buscar_duplicados archivos1,
      ∃ g2 ∈ buscar_duplicados archivos2,
        g.1 = g2.1 ∧ (∀ r, r ∈ g.2 ↔ r ∈ g2.2) ∧ g.2.Perm g2.2 := by
  constructor
  · intro he
    rw [he]
  · rintro ⟨h, rutas⟩ hg
    rw [buscar_duplicados_caracterizacion] at hg
    obtain ⟨hr, hlen⟩ := hg
    have hp : (rutas_con_hash archivos1 h).Perm (rutas_con_hash archivos2 h) :=
      hperm.filterMap _
    refine ⟨(h, rutas_con_hash archivos2 h), ?_, rfl, ?_, ?_⟩
    · rw [buscar_duplicados_caracterizacion]
      exact ⟨rfl, by rw [← hp.length_eq, ← hr]; exact hlen⟩
    · intro r
      rw [hr]
      exact hp.mem_iff
    · rw [hr]
      exact hp

/-- **C4.** Each removal of the Executor is independent: a failed deletion
is recorded and does not stop the remaining candidates of its group nor the
later groups from being attempted, it does not increment the counter, and
the reported total is exactly the number of successful removals. -/
theorem eliminar_duplicados_parcial (fs : String → Option Int)
    (borrar : String → Bool) (duplicados : List (String × List String))
    (hne : ∀ g ∈ duplicados, g.2 ≠ []) :
    ∃ total log,
      eliminar_duplicados fs borrar duplicados = some (total, log) ∧
      log.map Prod.fst = candidatos fs duplicados ∧
      (∀ e ∈ log, e.2 = borrar e.1) ∧
      total = (log.filter fun e => e.2).length := by
  refine ⟨((registro borrar (candidatos fs duplicados)).filter fun e => e.2).length,
    registro borrar (candidatos fs duplicados), ?_, ?_, ?_, rfl⟩
  · unfold eliminar_duplicados
    rw [eliminar_lista_spec fs borrar duplicados (0, []) hne]
    simp
  · simp [registro, List.map_map, Function.comp_def]
  · intro e he
    simp only [registro, List.mem_map] at he
    obtain ⟨c, _, rfl⟩ := he
    rfl

/-! ## The entry point -/

/-- **C7.** Deletion happens only when the stripped, lowercased confirmation
is exactly `"si"`: for any other response, after the groups have been
reported the run emits `cancelado` and performs no deletion (no `borrado`
event occurs in the trace). -/
theorem main_confirmacion (es_dir : Bool)
    (archivos : List (String × Option (List Nat))) (fs : String → Option Int)
    (borrar : String → Bool) (respuesta : String) (hdir : es_dir = true)
    (hdup : buscar_duplicados archivos ≠ [])
    (hno : normaliza respuesta ≠ "si") :
    Programa.main es_dir archivos fs borrar respuesta =
      [.escaneo (buscar_duplicados archivos),
       .reporte (buscar_duplicados archivos), .cancelado] ∧
    ∀ r ex, Evento.borrado r ex ∉ Programa.main es_dir archivos fs borrar respuesta := by
  subst hdir
  have hmain : Programa.main true archivos fs borrar respuesta =
      [.escaneo (buscar_duplicados archivos),
       .reporte (buscar_duplicados archivos), .cancelado] := by
    simp [Programa.main, hdup, hno]
  refine ⟨hmain, ?_⟩
  intro r ex
  rw [hmain]
  simp

/-- **C8.** When the supplied root is not an existing directory the run
stops with the single user-visible message and nothing else: the trace is
exactly `[rutaInvalida]`, so the scan (and with it all fingerprinting and
grouping) is never invoked, nothing is reported and nothing is deleted. -/
theorem main_ruta_invalida (es_dir : Bool)
    (archivos : List (String × Option (List Nat))) (fs : String → Option Int)
    (borrar : String → Bool) (respuesta : String) (hdir : es_dir = false) :
    Programa.main es_dir archivos fs borrar respuesta = [.rutaInvalida] ∧
    (∀ g, Evento.escaneo g ∉ Programa.main es_dir archivos fs borrar respuesta) ∧
    (∀ g, Evento.reporte g ∉ Programa.main es_dir archivos fs borrar respuesta) ∧
    (∀ r ex, Evento.borrado r ex ∉ Programa.main es_dir archivos fs borrar respuesta) := by
  subst hdir
  have hmain : Programa.main false archivos fs borrar respuesta = [.rutaInvalida] := by
    simp [Programa.main]
  refine ⟨hmain, ?_, ?_, ?_⟩ <;> intros <;> rw [hmain] <;> simp

/-! ## Witnesses: the claim theorems applied at concrete inputs -/

/-- **C1, witness** at the group `["a", "b", "c"]` under `fs_testigo`. -/
theorem archivo_mas_reciente_correcto_testigo :
    ∃ conservado copias,
      archivo_mas_reciente fs_testigo ["a", "b", "c"] = some (conservado, copias) ∧
      conservado ∈ ["a", "b", "c"] ∧
      (∀ r ∈ ["a", "b", "c"],
        fecha_mod fs_testigo r ≤ fecha_mod fs_testigo conservado) ∧
      (∀ r, r ∈ copias ↔ (r ∈ ["a", "b", "c"] ∧ r ≠ conservado)) ∧
      conservado ∉ copias ∧ copias.Nodup :=
  archivo_mas_reciente_correcto fs_testigo ["a", "b", "c"] (by decide) (by decide)

/-- **C2 (amended), witness**: in `["a", "b"]` under `fs_positivo` the
unstattable `a` gets timestamp `0` and the kept path is not `a`. -/
theorem fecha_ilegible_no_conservado_testigo :
    fecha_mod fs_positivo "a" = 0 ∧ "b" ≠ "a" :=
  fecha_ilegible_no_conservado fs_positivo ["a", "b"] "a" (by decide) (by decide)
    "b" 5 (by decide) (by decide) (by decide) "b" ["a"] (by decide)

/-- **C3, witness** at the contents `[]` and `[0]`, whose digests differ. -/
theorem obtener_hash_espec_testigo :
    obtener_hash (some ([] : List Nat)) = some (sha256hex []) ∧
    absorber ([] : List Nat) = [] ∧
    (sha256 ([] : List Nat)).length = 32 ∧
    (sha256hex ([] : List Nat)).length = 64 ∧
    (obtener_hash (some ([] : List Nat)) = obtener_hash (some [0]) ↔
      ([] : List Nat) = [0]) :=
  obtener_hash_espec [] [0] fun h => absurd h (by decide)

/-- **C4, witness**: two groups, one failing removal (`b`), one successful
removal (`c`), one failing removal (`e`). -/
theorem eliminar_duplicados_parcial_testigo :
    ∃ total log,
      eliminar_duplicados fs_testigo borrar_testigo
        [("h1", ["a", "b", "c"]), ("h2", ["d", "e"])] = some (total, log) ∧
      log.map Prod.fst =
        candidatos fs_testigo [("h1", ["a", "b", "c"]), ("h2", ["d", "e"])] ∧
      (∀ e ∈ log, e.2 = borrar_testigo e.1) ∧
      total = (log.filter fun e => e.2).length :=
  eliminar_duplicados_parcial fs_testigo borrar_testigo
    [("h1", ["a", "b", "c"]), ("h2", ["d", "e"])] (by decide)

/-- **C5, witness**: the unreadable `x` is absent from every group of the
walk `archivos_ileg`. -/
theorem archivo_ilegible_excluido_testigo :
    obtener_hash none = none ∧
    ∀ g ∈ buscar_duplicados archivos_ileg, "x" ∉ g.2 :=
  archivo_ilegible_excluido archivos_ileg "x" (by decide) (by decide)

/-- **C6, witness**: on a walk whose two files have distinct contents the
returned mapping is empty. -/
theorem buscar_duplicados_invariantes_testigo :
    buscar_duplicados archivos_unicos = [] := by
  refine (buscar_duplicados_invariantes archivos_unicos).2 ?_
  intro h
  have hrc : rutas_con_hash archivos_unicos h =
      (if sha256hex [0] = h then ["a"] else []) ++
      (if sha256hex [1] = h then ["b"] else []) := by
    rw [show archivos_unicos =
        [("a", some [0])] ++ [("b", some [1])] from rfl, rutas_con_hash_append,
      rutas_con_hash_uno_some _ _ (obtener_hash_some [0]),
      rutas_con_hash_uno_some _ _ (obtener_hash_some [1])]
  by_cases h1 : sha256hex [0] = h
  · by_cases h2 : sha256hex [1] = h
    · exact absurd (h1.trans h2.symm) (by decide)
    · rw [hrc, if_pos h1, if_neg h2]
      simp
  · rw [hrc, if_neg h1]
    by_cases h2 : sha256hex [1] = h
    · rw [if_pos h2]
      simp
    · rw [if_neg h2]
      simp

/-- **C7, witness**: with a duplicate pair found, the response `" NO "`
(stripped and lowercased to `"no"`) cancels the run with no deletion. -/
theorem main_confirmacion_testigo :
    Programa.main true archivos_dup fs_testigo borrar_testigo " NO " =
      [.escaneo (buscar_duplicados archivos_dup),
       .reporte (buscar_duplicados archivos_dup), .cancelado] ∧
    ∀ r ex, Evento.borrado r ex ∉
      Programa.main true archivos_dup fs_testigo borrar_testigo " NO " :=
  main_confirmacion true archivos_dup fs_testigo borrar_testigo " NO " rfl
    (by decide) (by decide)

/-- **C8, witness**: an invalid root produces only the error message. -/
theorem main_ruta_invalida_testigo :
    Programa.main false archivos_dup fs_testigo borrar_testigo "si" =
      [.rutaInvalida] ∧
    (∀ g, Evento.escaneo g ∉
      Programa.main false archivos_dup fs_testigo borrar_testigo "si") ∧
    (∀ g, Evento.reporte g ∉
      Programa.main false archivos_dup fs_testigo borrar_testigo "si") ∧
    (∀ r ex, Evento.borrado r ex ∉
      Programa.main false archivos_dup fs_testigo borrar_testigo "si") :=
  main_ruta_invalida false archivos_dup fs_testigo borrar_testigo "si" rfl

/-- **C9, witness** at the two traversal orders of the same snapshot. -/
theorem buscar_duplicados_determinista_testigo :
    (archivos_dup = archivos_rev →
      buscar_duplicados archivos_dup = buscar_duplicados archivos_rev) ∧
    ∀ g ∈ buscar_duplicados archivos_dup,
      ∃ g2 ∈ buscar_duplicados archivos_rev,
        g.1 = g2.1 ∧ (∀ r, r ∈ g.2 ↔ r ∈ g2.2) ∧ g.2.Perm g2.2 :=
  buscar_duplicados_determinista archivos_dup archivos_rev
    (List.Perm.swap ("b", some [0]) ("a", some [0]) [])

/-- **C10, witness**: `a` and `b` tie at timestamp `5`; the first, `a`, is
kept. -/
theorem archivo_mas_reciente_primero_testigo :
    (∃ l1 l2, rutas_con_fechas fs_testigo ["a", "b", "c"] =
        l1 ++ ("a", fecha_mod fs_testigo "a") :: l2 ∧
        ∀ y ∈ l1, y.2 < fecha_mod fs_testigo "a") ∧
    (∀ (fs2 : String → Option Int) (rutas2 : List String),
      rutas_con_fechas fs_testigo ["a", "b", "c"] = rutas_con_fechas fs2 rutas2 →
      archivo_mas_reciente fs2 rutas2 = some ("a", ["b", "c"])) :=
  archivo_mas_reciente_primero fs_testigo ["a", "b", "c"] "a" ["b", "c"]
    (by decide)
